import Mathlib

/-!
A shallow embedding of the chart and data-transformation logic of
`src/app/src/App.js` (weather forecast-analysis front end).

Modelling conventions:
* JS numbers are modelled as `Rat` (exact arithmetic); timestamps are `Int`
  millisecond values (the result of `Date.prototype.valueOf`).
* A JS object, together with the iteration order of `Object.entries` /
  `Object.keys`, is modelled as an association list in that iteration order.
* `undefined` or `null` results of property lookups are modelled with `Option`.
-/

namespace Weather

variable {α : Type*}

/-- Last element of a list, as in JS `arr[arr.length - 1]` / `arr.slice(-1)[0]`. -/
def lastOpt : List α → Option α
  | [] => none
  | [a] => some a
  | _ :: b :: bs => lastOpt (b :: bs)

/-- All elements of a list but the last one. -/
def dropTail : List α → List α
  | [] => []
  | [_] => []
  | a :: b :: bs => a :: dropTail (b :: bs)

/-- Concatenation of a list of lists. -/
def flat : List (List α) → List α
  | [] => []
  | l :: ls => l ++ flat ls

theorem lastOpt_append_one : ∀ (l : List α) (a : α), lastOpt (l ++ [a]) = some a
  | [], _ => rfl
  | [_], _ => rfl
  | _ :: c :: cs, a => lastOpt_append_one (c :: cs) a

theorem dropTail_append_one : ∀ (l : List α) (a : α), dropTail (l ++ [a]) = l
  | [], _ => rfl
  | [_], _ => rfl
  | b :: c :: cs, a => by
      have ih := dropTail_append_one (c :: cs) a
      show b :: dropTail ((c :: cs) ++ [a]) = b :: c :: cs
      rw [ih]

theorem lastOpt_eq_none : ∀ (l : List α), lastOpt l = none → l = []
  | [], _ => rfl
  | [a], h => by simp [lastOpt] at h
  | _ :: b :: bs, h => by
      have := lastOpt_eq_none (b :: bs) h
      simp at this

theorem lastOpt_decomp : ∀ (l : List α) (a : α), lastOpt l = some a → l = dropTail l ++ [a]
  | [], a, h => by simp [lastOpt] at h
  | [b], a, h => by
      simp [lastOpt] at h
      simp [dropTail, h]
  | b :: c :: cs, a, h => by
      have ih := lastOpt_decomp (c :: cs) a h
      calc b :: c :: cs = b :: (dropTail (c :: cs) ++ [a]) := by rw [← ih]
        _ = dropTail (b :: c :: cs) ++ [a] := by simp [dropTail]

theorem mem_dropTail : ∀ (l : List α) (b : α), b ∈ dropTail l → b ∈ l
  | [], b, h => by simp [dropTail] at h
  | [_], b, h => by simp [dropTail] at h
  | a :: c :: cs, b, h => by
      simp only [dropTail, List.mem_cons] at h
      rcases h with h | h
      · simp [h]
      · exact List.mem_cons_of_mem a (mem_dropTail (c :: cs) b h)

theorem lastOpt_mem (l : List α) (a : α) (h : lastOpt l = some a) : a ∈ l := by
  rw [lastOpt_decomp l a h]
  exact List.mem_append_right _ (List.mem_singleton_self a)

theorem dropTail_length : ∀ (l : List α), l ≠ [] → (dropTail l).length + 1 = l.length
  | [], h => absurd rfl h
  | [_], _ => rfl
  | _ :: b :: bs, _ => by
      have := dropTail_length (b :: bs) (by simp)
      simp only [dropTail, List.length_cons] at this ⊢
      omega

theorem flat_append : ∀ (l₁ l₂ : List (List α)), flat (l₁ ++ l₂) = flat l₁ ++ flat l₂
  | [], _ => rfl
  | l :: ls, l₂ => by simp [flat, flat_append ls l₂]

theorem chain_append_one {R : α → α → Prop} :
    ∀ (l : List α) (p d : α), List.Chain' R l → lastOpt l = some p → R p d →
      List.Chain' R (l ++ [d])
  | [], p, d, _, hl, _ => by simp [lastOpt] at hl
  | [a], p, d, _, hl, hpd => by
      simp [lastOpt] at hl
      subst hl
      exact List.chain'_cons.mpr ⟨hpd, List.chain'_singleton d⟩
  | a :: b :: bs, p, d, hc, hl, hpd => by
      rw [List.chain'_cons] at hc
      have ih := chain_append_one (b :: bs) p d hc.2 hl hpd
      exact List.chain'_cons.mpr ⟨hc.1, ih⟩

/-! ## The error-region builder (`displayedErrea`, App.js lines 149-197)

For the active lead day, the source reduces `Object.entries(errors)` into a
list of contiguous "error areas".  Each entry `[timeStr, amount]` becomes the
point `{x: new Date(timeStr), y: fcasts[timeStr], y0: obs[timeStr], amount}`;
the point is appended to the last area exactly when that area's last point is
one hour (3600000 ms) before it, and otherwise starts a new one-point area. -/

/-- A point of an error area (App.js lines 166-171).  A missing
`fcasts[t]` / `obs[t]` value (JS `undefined`) is modelled as `none`. -/
structure ErreaDatum where
  x : Int
  y : Option Rat
  y0 : Option Rat
  amount : Rat
deriving DecidableEq

/-- The point built for one `errors` entry (App.js lines 165-171). -/
def mkErreaDatum (fcasts obs : Int → Option Rat) (e : Int × Rat) : ErreaDatum :=
  ⟨e.1, fcasts e.1, obs e.1, e.2⟩

/-- One step of the `reduce` at App.js lines 162-185: append the new point to
the last area when that area's last point sits exactly one hour earlier,
otherwise push a fresh one-point area.  (The inner `none` branch corresponds
to an empty last area, which never occurs.) -/
def erreaStep (fcasts obs : Int → Option Rat) (erreas : List (List ErreaDatum))
    (e : Int × Rat) : List (List ErreaDatum) :=
  match lastOpt erreas with
  | none => erreas ++ [[mkErreaDatum fcasts obs e]]
  | some lastErrea =>
    match lastOpt lastErrea with
    | none => erreas ++ [[mkErreaDatum fcasts obs e]]
    | some lastPt =>
      if lastPt.x = e.1 - 3600000 then
        dropTail erreas ++ [lastErrea ++ [mkErreaDatum fcasts obs e]]
      else erreas ++ [[mkErreaDatum fcasts obs e]]

/-- The `displayedErrea` data (App.js lines 161-196): the `reduce` over the
active lead-day's error entries, in entry (iteration) order. -/
def displayedErrea (fcasts obs : Int → Option Rat) (errors : List (Int × Rat)) :
    List (List ErreaDatum) :=
  errors.foldl (erreaStep fcasts obs) []

/-- Number of positions at which two consecutive timestamps of the list differ
by other than exactly one hour. -/
def gapPositions : List Int → Nat
  | t :: t' :: rest => (if t' = t + 3600000 then 0 else 1) + gapPositions (t' :: rest)
  | _ => 0

/-- The last point of the last area of the accumulator. -/
def lastDatum (erreas : List (List ErreaDatum)) : Option ErreaDatum :=
  match lastOpt erreas with
  | none => none
  | some r => lastOpt r

/-- Exhaustive case analysis of one `reduce` step: either the new point
extends the last area (first disjunct) or a fresh one-point area is pushed
(second disjunct, whose first component certifies that no extension was
possible). -/
theorem erreaStep_cases (f o : Int → Option Rat) (acc : List (List ErreaDatum))
    (e : Int × Rat) :
    (∃ rl p, lastOpt acc = some rl ∧ lastOpt rl = some p ∧ p.x = e.1 - 3600000 ∧
        erreaStep f o acc e = dropTail acc ++ [rl ++ [mkErreaDatum f o e]])
    ∨ ((∀ rl p, lastOpt acc = some rl → lastOpt rl = some p → ¬ p.x = e.1 - 3600000) ∧
        erreaStep f o acc e = acc ++ [[mkErreaDatum f o e]]) := by
  unfold erreaStep
  split
  · rename_i h
    refine Or.inr ⟨?_, rfl⟩
    intro rl p hrl _
    rw [h] at hrl
    simp at hrl
  · rename_i lastErrea h
    split
    · rename_i h2
      refine Or.inr ⟨?_, rfl⟩
      intro rl p hrl hp
      rw [h] at hrl
      cases hrl
      rw [h2] at hp
      simp at hp
    · rename_i lastPt h2
      split
      · rename_i hif
        exact Or.inl ⟨lastErrea, lastPt, h, h2, hif, rfl⟩
      · rename_i hif
        refine Or.inr ⟨?_, rfl⟩
        intro rl p hrl hp
        rw [h] at hrl
        cases hrl
        rw [h2] at hp
        cases hp
        exact hif

theorem lastDatum_erreaStep (f o : Int → Option Rat) (acc : List (List ErreaDatum))
    (e : Int × Rat) : lastDatum (erreaStep f o acc e) = some (mkErreaDatum f o e) := by
  rcases erreaStep_cases f o acc e with ⟨rl, p, h, h2, hif, heq⟩ | ⟨hno, heq⟩ <;>
    rw [heq] <;> simp [lastDatum, lastOpt_append_one, lastOpt]

theorem length_erreaStep (f o : Int → Option Rat) (acc : List (List ErreaDatum))
    (e : Int × Rat) (p : ErreaDatum) (hp : lastDatum acc = some p) :
    (erreaStep f o acc e).length = acc.length + (if e.1 = p.x + 3600000 then 0 else 1) := by
  rcases erreaStep_cases f o acc e with ⟨rl, q, h, h2, hif, heq⟩ | ⟨hno, heq⟩
  · simp only [lastDatum, h] at hp
    rw [h2] at hp
    cases hp
    have hne : acc ≠ [] := by
      intro hnil
      rw [hnil] at h
      cases h
    have hlen := dropTail_length acc hne
    have hcond : e.1 = p.x + 3600000 := by omega
    rw [heq, if_pos hcond]
    simp only [List.length_append, List.length_cons, List.length_nil]
    omega
  · have hrl : ∃ rl, lastOpt acc = some rl ∧ lastOpt rl = some p := by
      unfold lastDatum at hp
      cases h : lastOpt acc with
      | none => rw [h] at hp; cases hp
      | some rl => rw [h] at hp; exact ⟨rl, rfl, hp⟩
    rcases hrl with ⟨rl, h, h2⟩
    have hcond : ¬ e.1 = p.x + 3600000 := by
      intro hc
      exact hno rl p h h2 (by omega)
    rw [heq, if_neg hcond]
    simp

theorem flat_erreaStep (f o : Int → Option Rat) (acc : List (List ErreaDatum))
    (e : Int × Rat) :
    flat (erreaStep f o acc e) = flat acc ++ [mkErreaDatum f o e] := by
  rcases erreaStep_cases f o acc e with ⟨rl, p, h, h2, hif, heq⟩ | ⟨hno, heq⟩
  · have hdec := lastOpt_decomp acc rl h
    rw [heq, flat_append]
    conv_rhs => rw [hdec, flat_append]
    simp [flat]
  · rw [heq, flat_append]
    simp [flat]

theorem chain_erreaStep (f o : Int → Option Rat) (acc : List (List ErreaDatum))
    (e : Int × Rat)
    (hinv : ∀ r ∈ acc, List.Chain' (fun p q : ErreaDatum => q.x = p.x + 3600000) r) :
    ∀ r ∈ erreaStep f o acc e,
      List.Chain' (fun p q : ErreaDatum => q.x = p.x + 3600000) r := by
  intro r hr
  rcases erreaStep_cases f o acc e with ⟨rl, p, h, h2, hif, heq⟩ | ⟨hno, heq⟩
  · rw [heq] at hr
    simp only [List.mem_append, List.mem_singleton] at hr
    rcases hr with hr | hr
    · exact hinv r (mem_dropTail acc r hr)
    · subst hr
      refine chain_append_one rl p (mkErreaDatum f o e)
        (hinv rl (lastOpt_mem acc rl h)) h2 ?_
      show (mkErreaDatum f o e).x = p.x + 3600000
      simp only [mkErreaDatum]
      omega
  · rw [heq] at hr
    simp only [List.mem_append, List.mem_singleton] at hr
    rcases hr with hr | hr
    · exact hinv r hr
    · subst hr; exact List.chain'_singleton _

theorem length_foldl_errea (f o : Int → Option Rat) :
    ∀ (es : List (Int × Rat)) (acc : List (List ErreaDatum)) (p : ErreaDatum),
      lastDatum acc = some p →
      (es.foldl (erreaStep f o) acc).length = acc.length + gapPositions (p.x :: es.map Prod.fst)
  | [], acc, p, _ => by simp [gapPositions]
  | e :: es, acc, p, hp => by
      have hstep := length_erreaStep f o acc e p hp
      have hlast := lastDatum_erreaStep f o acc e
      have ih := length_foldl_errea f o es (erreaStep f o acc e) (mkErreaDatum f o e) hlast
      simp only [List.foldl_cons]
      rw [ih, hstep]
      simp only [List.map_cons, gapPositions, mkErreaDatum]
      by_cases hif : e.1 = p.x + 3600000 <;> simp [hif] <;> omega

theorem chain_foldl_errea (f o : Int → Option Rat) :
    ∀ (es : List (Int × Rat)) (acc : List (List ErreaDatum)),
      (∀ r ∈ acc, List.Chain' (fun p q : ErreaDatum => q.x = p.x + 3600000) r) →
      ∀ r ∈ es.foldl (erreaStep f o) acc,
        List.Chain' (fun p q : ErreaDatum => q.x = p.x + 3600000) r
  | [], acc, hinv => by simpa using hinv
  | e :: es, acc, hinv => by
      have hstep := chain_erreaStep f o acc e hinv
      have ih := chain_foldl_errea f o es (erreaStep f o acc e) hstep
      simpa using ih

theorem flat_foldl_errea (f o : Int → Option Rat) :
    ∀ (es : List (Int × Rat)) (acc : List (List ErreaDatum)),
      flat (es.foldl (erreaStep f o) acc) = flat acc ++ es.map (mkErreaDatum f o)
  | [], acc => by simp
  | e :: es, acc => by
      have ih := flat_foldl_errea f o es (erreaStep f o acc e)
      simp only [List.foldl_cons, List.map_cons]
      rw [ih, flat_erreaStep]
      simp [List.append_assoc]

theorem gapPositions_eq_zero :
    ∀ (ts : List Int), List.Chain' (fun a b => b = a + 3600000) ts → gapPositions ts = 0
  | [], _ => rfl
  | [_], _ => rfl
  | t :: t' :: ts, h => by
      rw [List.chain'_cons] at h
      rcases h with ⟨h1, h2⟩
      subst h1
      have ih := gapPositions_eq_zero ((t + 3600000) :: ts) h2
      simp [gapPositions, ih]

/-- Claim C1 (amended): for an `errors` map whose entries are iterated in
ascending timestamp order, the error-region builder produces for a nonempty
map exactly `gapPositions + 1` regions, where `gapPositions` counts the
consecutive-timestamp pairs that differ by other than one hour; in particular
a nonempty map at exact one-hour spacing yields exactly one region, and an
empty map yields an empty region sequence.  (The original claim, which counted
gaps over the sorted timestamps of an arbitrarily-ordered map, fails because
the source iterates `Object.entries` in insertion order without sorting; see
the counterexample.) -/
theorem displayedErrea_sorted_region_count (f o : Int → Option Rat)
    (errors : List (Int × Rat))
    (hsorted : List.Chain' (· < ·) (errors.map Prod.fst)) :
    (errors = [] → displayedErrea f o errors = [])
    ∧ (errors ≠ [] →
        (displayedErrea f o errors).length = gapPositions (errors.map Prod.fst) + 1)
    ∧ (errors ≠ [] → List.Chain' (fun a b => b = a + 3600000) (errors.map Prod.fst) →
        (displayedErrea f o errors).length = 1) := by
  have hlen : errors ≠ [] →
      (displayedErrea f o errors).length = gapPositions (errors.map Prod.fst) + 1 := by
    intro hne
    cases errors with
    | nil => exact absurd rfl hne
    | cons e es =>
      have h1 : erreaStep f o [] e = [[mkErreaDatum f o e]] := rfl
      have h2 : lastDatum [[mkErreaDatum f o e]] = some (mkErreaDatum f o e) := rfl
      have hmain := length_foldl_errea f o es [[mkErreaDatum f o e]] (mkErreaDatum f o e) h2
      unfold displayedErrea
      rw [List.foldl_cons, h1, hmain]
      simp only [List.length_cons, List.length_nil, List.map_cons, mkErreaDatum]
      omega
  refine ⟨fun h => by simp [h, displayedErrea], hlen, fun hne hch => ?_⟩
  rw [hlen hne, gapPositions_eq_zero _ hch]

/-- Witness for `displayedErrea_sorted_region_count`: a concrete ascending
errors map with one gap yields two regions. -/
theorem displayedErrea_sorted_region_count_witness :
    (displayedErrea (fun _ => none) (fun _ => none)
        [((0 : Int), (1 : Rat)), (3600000, 2), (10800000, 3)]).length
      = gapPositions ([((0 : Int), (1 : Rat)), (3600000, 2), (10800000, 3)].map Prod.fst) + 1 :=
  (displayedErrea_sorted_region_count (fun _ => none) (fun _ => none)
      [((0 : Int), (1 : Rat)), (3600000, 2), (10800000, 3)]
      (List.Chain.cons (by decide) (List.Chain.cons (by decide) List.Chain.nil))).2.1
    (by decide)

/-- Counterexample to claim C1 as stated: an errors map whose entries come in
descending order `[7200000, 3600000]`.  Taken in ascending order the
timestamps are at exact one-hour spacing (first two conjuncts), so the claim
demands exactly one region, but the builder, which iterates entries in the
given order, produces two regions. -/
theorem displayedErrea_unsorted_cex :
    List.Chain' (fun a b => b = a + 3600000)
      (([((7200000 : Int), (1 : Rat)), (3600000, 2)].map Prod.fst).reverse)
    ∧ ([((7200000 : Int), (1 : Rat)), (3600000, 2)].map Prod.fst).reverse
        = [(3600000 : Int), 7200000]
    ∧ (displayedErrea (fun _ => none) (fun _ => none)
        [((7200000 : Int), (1 : Rat)), (3600000, 2)]).length = 2 :=
  ⟨List.Chain.cons (by decide) List.Chain.nil, by decide, by decide⟩

/-- Claim C2 (amended): the error-region builder iterates the error entries in
the map's own entry order (the concatenation of its output regions is exactly
the entry list, pointwise; it is ascending only when the entries are given
ascending), and every region in its output is monotonically increasing in time
with consecutive points differing by exactly 3600000 ms — the latter holds
unconditionally, for any entry order, because a point is appended to the
current region only when it extends it by exactly one hour. -/
theorem displayedErrea_entry_order_chains (f o : Int → Option Rat)
    (errors : List (Int × Rat)) :
    flat (displayedErrea f o errors) = errors.map (mkErreaDatum f o)
    ∧ ∀ r ∈ displayedErrea f o errors,
        List.Chain' (fun p q : ErreaDatum => q.x = p.x + 3600000) r := by
  constructor
  · have := flat_foldl_errea f o errors []
    simpa [displayedErrea, flat] using this
  · exact chain_foldl_errea f o errors [] (by simp)

/-- Witness for `displayedErrea_entry_order_chains`: the single region built
from two hourly-spaced entries is an hourly chain. -/
theorem displayedErrea_entry_order_chains_witness :
    List.Chain' (fun p q : ErreaDatum => q.x = p.x + 3600000)
      [⟨0, none, none, 1⟩, ⟨3600000, none, none, 2⟩] :=
  (displayedErrea_entry_order_chains (fun _ => none) (fun _ => none)
      [((0 : Int), (1 : Rat)), (3600000, 2)]).2 _ (by decide)

/-- Counterexample to claim C2 as stated: the builder does not iterate entries
in ascending timestamp order — feeding the same two entries in the two
possible orders produces different outputs, and with descending entries the
two produced regions appear in descending time order. -/
theorem displayedErrea_order_dependent_cex :
    displayedErrea (fun _ => none) (fun _ => none)
        [((7200000 : Int), (1 : Rat)), (3600000, 2)]
      ≠ displayedErrea (fun _ => none) (fun _ => none)
        [((3600000 : Int), (2 : Rat)), (7200000, 1)]
    ∧ (displayedErrea (fun _ => none) (fun _ => none)
        [((7200000 : Int), (1 : Rat)), (3600000, 2)]).map (fun r => r.map ErreaDatum.x)
      = [[7200000], [3600000]] :=
  ⟨by decide, by decide⟩

/-! ## String helpers with JS semantics -/

/-- Whether `pat` is a prefix of the second list (helper for JS
`String.prototype.includes`). -/
def startsWithCL : List Char → List Char → Bool
  | [], _ => true
  | _ :: _, [] => false
  | p :: ps, c :: cs => p == c && startsWithCL ps cs

/-- JS `s.includes(pat)` over char lists: some suffix starts with `pat`. -/
def containsCL (pat : List Char) : List Char → Bool
  | [] => startsWithCL pat []
  | c :: cs => startsWithCL pat (c :: cs) || containsCL pat cs

/-- JS `s.includes(pat)`. -/
def containsStr (s pat : String) : Bool := containsCL pat.data s.data

/-- The prefix of the list strictly before the first occurrence of `pat`, or
the whole list when `pat` does not occur: JS `s.split(pat)[0]` for a nonempty
separator `pat`. -/
def beforeSub (pat : List Char) : List Char → List Char
  | [] => []
  | c :: cs => if startsWithCL pat (c :: cs) then [] else c :: beforeSub pat cs

/-- JS `labelName.split('-Day')[0]` (App.js line 243). -/
def extractDay (label : String) : String := ⟨beforeSub "-Day".data label.data⟩

/-- ASCII `String.prototype.toLowerCase`. -/
def toLowerStr (s : String) : String := ⟨s.data.map Char.toLower⟩

/-! ## `toTitleCase` (App.js lines 423-436)

The source applies three `String.replace` calls in order: the first underscore
becomes a space (non-global `/_/`); every run of at least two word characters
preceded by start-of-string or a boundary character (`^`, `(`, `"`, `\s`,
`-`, `,`) that equals its own upper-casing is lower-cased wholesale; and every
word character at start-of-string or after a boundary character is
upper-cased.  We realise the two global regex passes as passes over the
maximal word/non-word runs of the string. -/

/-- JS `\w` (ASCII word character). -/
def isWordChar (c : Char) : Bool := c.isAlpha || c.isDigit || c == '_'

/-- The boundary characters of the `toTitleCase` regexes; `\s` is modelled by
the ASCII whitespace characters. -/
def isBoundaryChar (c : Char) : Bool :=
  c == '(' || c == '"' || c == '-' || c == ',' ||
  c == ' ' || c == '\t' || c == '\n' || c == '\r' || c == '\x0b' || c == '\x0c'

/-- Split a char list into maximal runs of word / non-word characters.  The
first argument accumulates the current run in reverse, the second is its
kind. -/
def splitRunsAux : List Char → Bool → List Char → List (Bool × List Char)
  | cur, curWord, [] => if cur.isEmpty then [] else [(curWord, cur.reverse)]
  | cur, curWord, c :: cs =>
    if isWordChar c == curWord then splitRunsAux (c :: cur) curWord cs
    else if cur.isEmpty then splitRunsAux [c] (isWordChar c) cs
    else (curWord, cur.reverse) :: splitRunsAux [c] (isWordChar c) cs

def splitRuns (l : List Char) : List (Bool × List Char) := splitRunsAux [] true l

/-- Whether the character preceding the next run (the last of the given
non-word run) is a regex boundary; `b` is returned for an empty run. -/
def lastIsBoundary (b : Bool) (run : List Char) : Bool :=
  match lastOpt run with
  | some c => isBoundaryChar c
  | none => b

/-- Replacement of the second regex: a matched all-uppercase word is
lower-cased wholesale, any other matched word is kept. -/
def adjustUpperRun (run : List Char) : List Char :=
  if run.all (fun c => c.toUpper == c) then run.map Char.toLower else run

/-- Second `replace` of `toTitleCase`: act on word runs of length at least two
that follow start-of-string or a boundary character. -/
def titlePassB : Bool → List (Bool × List Char) → List Char
  | _, [] => []
  | prevBoundary, (isW, run) :: rest =>
    if isW then
      (if prevBoundary && decide (2 ≤ run.length) then adjustUpperRun run else run)
        ++ titlePassB false rest
    else run ++ titlePassB (lastIsBoundary prevBoundary run) rest

/-- Upper-case the first character of a run. -/
def upperFirst : List Char → List Char
  | [] => []
  | c :: cs => c.toUpper :: cs

/-- Third `replace` of `toTitleCase`: upper-case a word character at
start-of-string or after a boundary character. -/
def titlePassC : Bool → List (Bool × List Char) → List Char
  | _, [] => []
  | prevBoundary, (isW, run) :: rest =>
    if isW then
      (if prevBoundary then upperFirst run else run) ++ titlePassC false rest
    else run ++ titlePassC (lastIsBoundary prevBoundary run) rest

/-- First `replace` of `toTitleCase`: non-global `/_/`, so only the first
underscore becomes a space. -/
def replaceFirstUnderscore : List Char → List Char
  | [] => []
  | c :: cs => if c == '_' then ' ' :: cs else c :: replaceFirstUnderscore cs

/-- `toTitleCase` (App.js lines 423-436). -/
def toTitleCase (s : String) : String :=
  ⟨titlePassC true (splitRuns (titlePassB true (splitRuns (replaceFirstUnderscore s.data))))⟩

/-! ## `LabeledValue` (App.js lines 491-509)

`formatForDisplay = (val, units) => Math.round(val * 10) / 10 + units`.  On
the exact rational `q` and an integer factor `m`, the JS value
`Math.round(q * m * 10)` is `⌊(q * m * 10) + 1/2⌋ = (2 * (m * 10 * q.num) +
q.den) / (2 * q.den)` (Euclidean division by the positive denominator), and
`x / 10` for the resulting integer `x` prints as the decimal `tenthsToString
x`.  `LabeledValue` uses `m = 100` (accuracy, `%`) or `m = 1` (`°C`). -/

/-- JS `Math.round (q * m)` on an exact rational `q` and integer `m`:
`⌊q * m + 1/2⌋`, computed from the numerator and denominator. -/
def jsRoundMul (m : Int) (q : Rat) : Int :=
  (2 * (m * q.num) + (q.den : Int)) / (2 * (q.den : Int))

/-- Decimal rendering of the JS number `k / 10` (JS prints integers without a
decimal point, other one-decimal values with exactly one digit). -/
def tenthsToString (k : Int) : String :=
  (if k < 0 then "-" else "")
    ++ toString (k.natAbs / 10)
    ++ (if k.natAbs % 10 == 0 then "" else "." ++ toString (k.natAbs % 10))

/-- JS `type || label` (App.js line 495): the declared type unless it is
falsy (absent or the empty string). -/
def jsOrStr (type : Option String) (label : String) : String :=
  match type with
  | some t => if t = "" then label else t
  | none => label

/-- The `formattedValue` computed by `LabeledValue` (App.js lines 495-502):
`value * 100.0` rounded to one decimal with `%` when the lower-cased
`type || label` is `"accuracy"`, otherwise `value` rounded to one decimal
with `°C`. -/
def formattedValue (label : String) (value : Rat) (type : Option String) : String :=
  if toLowerStr (jsOrStr type label) = "accuracy" then
    tenthsToString (jsRoundMul 1000 value) ++ "%"
  else tenthsToString (jsRoundMul 10 value) ++ "°C"

/-- The text rendered by `LabeledValue` (App.js lines 503-508): the
title-cased label, a colon, and the formatted value. -/
def LabeledValue (label : String) (value : Rat) (type : Option String) : String :=
  toTitleCase label ++ ": " ++ formattedValue label value type

/-! ## `ActiveDataDisplay` (App.js lines 440-489) -/

/-- A raw hover point handed to `ActiveDataDisplay`: Victory's `childName`
(series name), `_y` (modelled `none` for JS `null`), and the error `amount`
carried by error-area points. -/
structure ActiveDatum where
  childName : String
  y : Option Rat
  amount : Rat
deriving DecidableEq

/-- Points that produce a non-error entry: non-null `_y` and a series name
not containing `"Error"`. -/
def isDisplayedNonError (d : ActiveDatum) : Bool :=
  d.y.isSome && !(containsStr d.childName "Error")

/-- The last point of the list with non-null `_y` and an error series name:
exactly the point whose formatting survives in `formattedErrorDatum`
(App.js lines 463-470, later points overwrite earlier ones). -/
def lastErrorDatum : List ActiveDatum → Option ActiveDatum
  | [] => none
  | d :: ds =>
    match lastErrorDatum ds with
    | some e => some e
    | none =>
      if d.y.isSome && containsStr d.childName "Error" then some d else none

/-- One step of the `forEach` of `ActiveDataDisplay` (App.js lines 450-471):
a null `_y` is skipped, a non-error point is appended to `formattedData`, an
error point overwrites `formattedErrorDatum`. -/
def activeDataStep (acc : List String × Option String) (d : ActiveDatum) :
    List String × Option String :=
  match d.y with
  | none => acc
  | some yv =>
    if !(containsStr d.childName "Error") then
      (acc.1 ++ [LabeledValue d.childName yv none], acc.2)
    else
      (acc.1, some (LabeledValue "Forecast Error" d.amount none))

/-- The labeled display sequence rendered by `ActiveDataDisplay`
(App.js lines 440-489): the formatted non-error points in input order,
followed by the recorded `Forecast Error` entry when there is one. -/
def ActiveDataDisplay (data : List ActiveDatum) : List String :=
  let r := data.foldl activeDataStep ([], none)
  match r.2 with
  | some e => r.1 ++ [e]
  | none => r.1

theorem foldl_activeDataStep :
    ∀ (data : List ActiveDatum) (fd : List String) (fe : Option String),
      data.foldl activeDataStep (fd, fe)
        = (fd ++ (data.filter isDisplayedNonError).map
              (fun d => LabeledValue d.childName (d.y.getD 0) none),
           match lastErrorDatum data with
           | some e => some (LabeledValue "Forecast Error" e.amount none)
           | none => fe)
  | [], fd, fe => by simp [lastErrorDatum]
  | d :: ds, fd, fe => by
      cases hy : d.y with
      | none =>
        have ih := foldl_activeDataStep ds fd fe
        cases hl : lastErrorDatum ds <;>
          simp [activeDataStep, hy, ih, lastErrorDatum, isDisplayedNonError, hl,
            List.filter_cons]
      | some yv =>
        by_cases hc : containsStr d.childName "Error"
        · have ih := foldl_activeDataStep ds fd
            (some (LabeledValue "Forecast Error" d.amount none))
          cases hl : lastErrorDatum ds <;>
            simp [activeDataStep, hy, hc, ih, lastErrorDatum, isDisplayedNonError, hl,
              List.filter_cons]
        · have ih := foldl_activeDataStep ds (fd ++ [LabeledValue d.childName yv none]) fe
          cases hl : lastErrorDatum ds <;>
            simp [activeDataStep, hy, hc, ih, lastErrorDatum, isDisplayedNonError, hl,
              List.filter_cons]

theorem ActiveDataDisplay_characterization (data : List ActiveDatum) :
    ActiveDataDisplay data
      = (data.filter isDisplayedNonError).map
          (fun d => LabeledValue d.childName (d.y.getD 0) none)
        ++ (match lastErrorDatum data with
            | some e => [LabeledValue "Forecast Error" e.amount none]
            | none => []) := by
  unfold ActiveDataDisplay
  rw [foldl_activeDataStep data [] none]
  cases hl : lastErrorDatum data <;> simp [hl]

/-- Claim C3 (amended): a hover point with a null value is dropped even when
it belongs to an error series (the null check at App.js line 451 precedes the
error check), so on the spec's example input the error entry appears only if
the error point's value is non-null, as in the second conjunct's input (error
value `20.1`); in general, whenever some error-series point of the input has
a non-null value, the output is the non-error entries in input order followed
by the single `Forecast Error` entry — last, regardless of the input order,
as the second conjunct's input (error point first) shows. -/
theorem ActiveDataDisplay_error_last (data : List ActiveDatum) (e : ActiveDatum)
    (hl : lastErrorDatum data = some e) :
    ActiveDataDisplay data
      = (data.filter isDisplayedNonError).map
          (fun d => LabeledValue d.childName (d.y.getD 0) none)
        ++ [LabeledValue "Forecast Error" e.amount none]
    ∧ ActiveDataDisplay
        [⟨"Error-Area-0", some (Rat.divInt 201 10), Rat.divInt (-23) 10⟩,
         ⟨"1-Day", some (Rat.divInt 92 5), 0⟩]
      = ["1-Day: 18.4°C", "Forecast Error: -2.3°C"] := by
  constructor
  · rw [ActiveDataDisplay_characterization, hl]
  · decide

/-- Witness for `ActiveDataDisplay_error_last` at its concrete input. -/
theorem ActiveDataDisplay_error_last_witness :
    ActiveDataDisplay
        [⟨"Error-Area-0", some (Rat.divInt 201 10), Rat.divInt (-23) 10⟩,
         ⟨"1-Day", some (Rat.divInt 92 5), 0⟩]
      = ([(⟨"Error-Area-0", some (Rat.divInt 201 10), Rat.divInt (-23) 10⟩ : ActiveDatum),
          ⟨"1-Day", some (Rat.divInt 92 5), 0⟩].filter isDisplayedNonError).map
            (fun d => LabeledValue d.childName (d.y.getD 0) none)
          ++ [LabeledValue "Forecast Error" (Rat.divInt (-23) 10) none] :=
  (ActiveDataDisplay_error_last
      [⟨"Error-Area-0", some (Rat.divInt 201 10), Rat.divInt (-23) 10⟩,
       ⟨"1-Day", some (Rat.divInt 92 5), 0⟩]
      ⟨"Error-Area-0", some (Rat.divInt 201 10), Rat.divInt (-23) 10⟩ (by decide)).1

/-- Counterexample to claim C3 as stated: on the spec's exact input, whose
error point carries a null value, the code drops the error point before ever
looking at its series name, so the claimed `Forecast Error` entry is absent
from the output. -/
theorem ActiveDataDisplay_null_error_cex :
    ActiveDataDisplay
        [⟨"Error-Area-0", none, Rat.divInt (-23) 10⟩, ⟨"1-Day", some (Rat.divInt 92 5), 0⟩]
      = ["1-Day: 18.4°C"]
    ∧ ActiveDataDisplay
        [⟨"Error-Area-0", none, Rat.divInt (-23) 10⟩, ⟨"1-Day", some (Rat.divInt 92 5), 0⟩]
      ≠ ["1-Day: 18.4°C", "Forecast Error: -2.3°C"] :=
  ⟨by decide, by decide⟩

/-! ## Claim C9: `LabeledValue` value formatting -/

theorem jsRoundMul_close (m : Int) (q : Rat) :
    |(jsRoundMul m q : Rat) - q * (m : Rat)| ≤ 1 / 2 := by
  have hden : (0 : Int) < (q.den : Int) := by exact_mod_cast q.den_pos
  have hd : (0 : Int) < 2 * (q.den : Int) := by omega
  have hdm := Int.ediv_add_emod (2 * (m * q.num) + (q.den : Int)) (2 * (q.den : Int))
  have hr1 : 0 ≤ (2 * (m * q.num) + (q.den : Int)) % (2 * (q.den : Int)) :=
    Int.emod_nonneg _ (by omega)
  have hr2 : (2 * (m * q.num) + (q.den : Int)) % (2 * (q.den : Int)) < 2 * (q.den : Int) :=
    Int.emod_lt_of_pos _ hd
  have hk : jsRoundMul m q
      = (2 * (m * q.num) + (q.den : Int)) / (2 * (q.den : Int)) := rfl
  have hle : 2 * (q.den : Int) * jsRoundMul m q ≤ 2 * (m * q.num) + (q.den : Int) := by
    rw [hk]; linarith
  have hlt : 2 * (m * q.num) + (q.den : Int)
      < 2 * (q.den : Int) * jsRoundMul m q + 2 * (q.den : Int) := by
    rw [hk]; linarith
  have hdenQ : (0 : Rat) < (q.den : Rat) := by exact_mod_cast q.den_pos
  have hq : (q.num : Rat) = q * (q.den : Rat) := by
    nth_rewrite 2 [← Rat.num_div_den q]
    rw [div_mul_cancel₀ _ (ne_of_gt hdenQ)]
  have hleQ : 2 * (q.den : Rat) * (jsRoundMul m q : Rat)
      ≤ 2 * ((m : Rat) * (q * (q.den : Rat))) + (q.den : Rat) := by
    rw [← hq]
    exact_mod_cast hle
  have hltQ : 2 * ((m : Rat) * (q * (q.den : Rat))) + (q.den : Rat)
      < 2 * (q.den : Rat) * (jsRoundMul m q : Rat) + 2 * (q.den : Rat) := by
    rw [← hq]
    exact_mod_cast hlt
  rw [abs_le]
  constructor
  · nlinarith [hleQ, hltQ, hdenQ]
  · nlinarith [hleQ, hltQ, hdenQ]

/-- Claim C9 (amended): `LabeledValue` rounds to one decimal place, rendering
the value as `value * 100` with a trailing `%` when the lower-cased declared
type — or, in its absence, the lower-cased label — equals `"accuracy"`, and
as the value with a trailing `°C` otherwise; `0.873` with label `"accuracy"`
renders `"87.3%"` and `18.44` with label `"temperature"` renders `"18.4°C"`.
The displayed integer `k` of tenths satisfies `|k - value * m * 10| ≤ 1/2`
with `m = 100` in the accuracy case and `m = 1` otherwise.  (The original
claim's "label or declared type equals accuracy" fails: a declared type takes
precedence over the label — see the counterexample.) -/
theorem LabeledValue_rounding_units :
    (∀ (label : String) (type : Option String) (value : Rat), ∃ k : Int,
      formattedValue label value type
        = tenthsToString k
          ++ (if toLowerStr (jsOrStr type label) = "accuracy" then "%" else "°C")
      ∧ |(k : Rat) - value
            * (if toLowerStr (jsOrStr type label) = "accuracy" then 1000 else 10)| ≤ 1 / 2)
    ∧ formattedValue "accuracy" (Rat.divInt 873 1000) none = "87.3%"
    ∧ formattedValue "temperature" (Rat.divInt 1844 100) none = "18.4°C" := by
  refine ⟨?_, by decide, by decide⟩
  intro label type value
  by_cases h : toLowerStr (jsOrStr type label) = "accuracy"
  · refine ⟨jsRoundMul 1000 value, ?_, ?_⟩
    · simp [formattedValue, h]
    · have := jsRoundMul_close 1000 value
      rw [if_pos h]
      simpa using this
  · refine ⟨jsRoundMul 10 value, ?_, ?_⟩
    · simp [formattedValue, h]
    · have := jsRoundMul_close 10 value
      rw [if_neg h]
      simpa using this

/-- Counterexample to claim C9 as stated: a value whose label equals
`"accuracy"` but whose declared type is `"bias"` is rendered in degrees, not
as a percentage — the declared type takes precedence over the label
(`(type || label).toLowerCase()`, App.js line 495). -/
theorem LabeledValue_type_precedence_cex :
    formattedValue "accuracy" (Rat.divInt 1 2) (some "bias") = "0.5°C"
    ∧ formattedValue "accuracy" (Rat.divInt 1 2) (some "bias") ≠ "50%" :=
  ⟨by decide, by decide⟩

/-! ## Legend state machine (App.js lines 111-112, 241-257, 272-279, 392-402) -/

theorem contains_eq_true_of_mem {α : Type*} [BEq α] [LawfulBEq α] {l : List α} {a : α}
    (h : a ∈ l) : l.contains a = true := by
  simp [List.contains, List.elem_iff, h]

theorem contains_eq_false_of_not_mem {α : Type*} [BEq α] [LawfulBEq α] {l : List α} {a : α}
    (h : a ∉ l) : l.contains a = false := by
  cases hc : l.contains a
  · rfl
  · exact absurd (List.elem_iff.mp (by simpa [List.contains] using hc)) h

/-- The value `toggleDisplayed` passes to `onChange` as the next active day:
the JS sentinel `false` (leave the state untouched), or a value to store —
`null` (`set none`, back to cumulative) or a lead-day key (`set (some d)`).
`set none` also models the `undefined` produced by destructuring an empty
`activeFcasts`, which is stored and equally falsy. -/
inductive DayUpdate where
  | noChange
  | set (d : Option String)
deriving DecidableEq

/-- The component state of `AnalysisChart` (App.js lines 388-390):
`activeFcastDay` (`none` = cumulative view) and the hover data. -/
structure ChartState where
  activeFcastDay : Option String
  activeData : List ActiveDatum
deriving DecidableEq

/-- `handleChange` (App.js lines 392-402): the active day is stored only when
the passed value is not the sentinel `false`; the hover data is replaced
whenever a JS-truthy value — any array, modelled `some` — is passed. -/
def handleChange (s : ChartState) (newActiveDay : DayUpdate)
    (newActiveData : Option (List ActiveDatum)) : ChartState :=
  ⟨match newActiveDay with
   | DayUpdate.noChange => s.activeFcastDay
   | DayUpdate.set d => d,
   match newActiveData with
   | some pts => pts
   | none => s.activeData⟩

/-- JS falsiness of the stored `activeDay` (`null`/`undefined`, or `""`). -/
def jsFalsyDay : Option String → Bool
  | none => true
  | some s => s == ""

/-- `activeFcasts` (App.js line 112): the isolated day alone when one is
active, otherwise all lead-day keys (`Object.keys(analysis.lead_days)` in
iteration order). -/
def activeFcasts (allFcastDays : List String) (activeDay : Option String) :
    List String :=
  if jsFalsyDay activeDay then allFcastDays else [activeDay.getD ""]

/-- `toggleDisplayed` (App.js lines 241-257). -/
def toggleDisplayed (allFcastDays : List String) (activeDay : Option String)
    (labelName : String) : DayUpdate :=
  let day := extractDay labelName
  if jsFalsyDay activeDay then
    if containsStr labelName "Error" then
      DayUpdate.set (activeFcasts allFcastDays activeDay).head?
    else if allFcastDays.contains day then DayUpdate.set (some day)
    else DayUpdate.noChange
  else if labelName == "Actual" || (activeFcasts allFcastDays activeDay).contains day then
    DayUpdate.set none
  else if allFcastDays.contains day then DayUpdate.set (some day)
  else DayUpdate.noChange

/-- A legend click (App.js lines 290-299 wire the legend's `onClick` to
`toggleDisplayed`, which ends with `onChange(newActiveDay, [])`). -/
def legendClick (allFcastDays : List String) (s : ChartState) (labelName : String) :
    ChartState :=
  handleChange s (toggleDisplayed allFcastDays s.activeFcastDay labelName) (some [])

/-- The active day after a legend click. -/
def nextActiveDay (allFcastDays : List String) (activeDay : Option String)
    (labelName : String) : Option String :=
  (legendClick allFcastDays ⟨activeDay, []⟩ labelName).activeFcastDay

/-- `onActivated` of the voronoi container (App.js line 277):
`(points) => onChange(false, points)`. -/
def onActivated (s : ChartState) (points : List ActiveDatum) : ChartState :=
  handleChange s DayUpdate.noChange (some points)

/-- Well-formedness of a lead-day key as it meets the legend labels:
nonempty, recovered intact from its own `"{d}-Day"` label by
`split('-Day')[0]`, its label free of the substring `"Error"` and distinct
from `"Actual"`.  Every day-count key (`"1"`, `"2"`, ...) satisfies this. -/
abbrev PlainDayKey (d : String) : Prop :=
  d ≠ "" ∧ extractDay (d ++ "-Day") = d
    ∧ containsStr (d ++ "-Day") "Error" = false ∧ d ++ "-Day" ≠ "Actual"

/-- Claim C4: from the cumulative state, clicking a present lead-day's
`"{d}-Day"` label isolates that day, and a second click on the same label
returns to the cumulative state — two clicks round-trip. -/
theorem legend_day_roundtrip (allDays : List String) (d : String)
    (hmem : d ∈ allDays) (hplain : PlainDayKey d) :
    nextActiveDay allDays none (d ++ "-Day") = some d
    ∧ nextActiveDay allDays (some d) (d ++ "-Day") = none := by
  obtain ⟨hne, hday, herr, hact⟩ := hplain
  have hc : allDays.contains d = true := contains_eq_true_of_mem hmem
  have hbe : (d == "") = false := by simp [hne]
  have hbact : (d ++ "-Day" == "Actual") = false := by simp [hact]
  constructor
  · simp [nextActiveDay, legendClick, handleChange, toggleDisplayed, jsFalsyDay,
      herr, hday, hc, hmem]
  · simp [nextActiveDay, legendClick, handleChange, toggleDisplayed, jsFalsyDay,
      activeFcasts, hbe, hbact, hday]

/-- Witness for `legend_day_roundtrip`. -/
theorem legend_day_roundtrip_witness :
    nextActiveDay ["1", "2", "3"] none "2-Day" = some "2"
    ∧ nextActiveDay ["1", "2", "3"] (some "2") "2-Day" = none :=
  legend_day_roundtrip ["1", "2", "3"] "2" (by decide) ⟨by decide, by decide, by decide, by decide⟩

/-- Claim C5: from `Isolated(day)`, clicking `"Actual"` or the isolated day's
own `"{day}-Day"` label returns to the cumulative state, while clicking a
different present day's `"{otherDay}-Day"` label moves directly to
`Isolated(otherDay)` in that one step, with no intermediate cumulative
state. -/
theorem legend_isolated_transitions (allDays : List String) (d d' : String)
    (hd : PlainDayKey d) (hd' : PlainDayKey d') (hne : d' ≠ d) (hmem' : d' ∈ allDays) :
    nextActiveDay allDays (some d) "Actual" = none
    ∧ nextActiveDay allDays (some d) (d ++ "-Day") = none
    ∧ nextActiveDay allDays (some d) (d' ++ "-Day") = some d' := by
  obtain ⟨hne0, hday, herr, hact⟩ := hd
  obtain ⟨hne0', hday', herr', hact'⟩ := hd'
  have hbe : (d == "") = false := by simp [hne0]
  have hbact' : (d' ++ "-Day" == "Actual") = false := by simp [hact']
  have hdd : (d' == d) = false := by simp [hne]
  have hc' : allDays.contains d' = true := contains_eq_true_of_mem hmem'
  refine ⟨?_, ?_, ?_⟩
  · simp [nextActiveDay, legendClick, handleChange, toggleDisplayed, jsFalsyDay, hbe]
  · have hbact : (d ++ "-Day" == "Actual") = false := by simp [hact]
    simp [nextActiveDay, legendClick, handleChange, toggleDisplayed, jsFalsyDay,
      activeFcasts, hbe, hbact, hday]
  · simp [nextActiveDay, legendClick, handleChange, toggleDisplayed, jsFalsyDay,
      activeFcasts, hbe, hbact', hday', hdd, hc', hne, hmem']

/-- Witness for `legend_isolated_transitions`. -/
theorem legend_isolated_transitions_witness :
    nextActiveDay ["1", "2", "3"] (some "1") "Actual" = none
    ∧ nextActiveDay ["1", "2", "3"] (some "1") "1-Day" = none
    ∧ nextActiveDay ["1", "2", "3"] (some "1") "3-Day" = some "3" :=
  legend_isolated_transitions ["1", "2", "3"] "1" "3"
    ⟨by decide, by decide, by decide, by decide⟩
    ⟨by decide, by decide, by decide, by decide⟩ (by decide) (by decide)

/-- Claim C6: from the cumulative state, clicking `"Error"` isolates the
first currently-displayed lead-day (the head of the lead-day key list, since
in the cumulative state `activeFcasts` is the whole key list), and clicking
`"Actual"` causes no transition, given that `"Actual"` is not itself a
lead-day key. -/
theorem legend_cumulative_error_actual (d0 : String) (rest : List String)
    (hact : "Actual" ∉ d0 :: rest) :
    nextActiveDay (d0 :: rest) none "Error" = some d0
    ∧ nextActiveDay (d0 :: rest) none "Actual" = none := by
  have h1 : containsStr "Error" "Error" = true := by decide
  have h2 : containsStr "Actual" "Error" = false := by decide
  have h3 : extractDay "Actual" = "Actual" := by decide
  have hc : (d0 :: rest).contains "Actual" = false := contains_eq_false_of_not_mem hact
  constructor
  · simp [nextActiveDay, legendClick, handleChange, toggleDisplayed, jsFalsyDay,
      activeFcasts, h1]
  · simp [nextActiveDay, legendClick, handleChange, toggleDisplayed, jsFalsyDay,
      h2, h3, hc, hact]

/-- Witness for `legend_cumulative_error_actual`. -/
theorem legend_cumulative_error_actual_witness :
    nextActiveDay ["1", "2"] none "Error" = some "1"
    ∧ nextActiveDay ["1", "2"] none "Actual" = none :=
  legend_cumulative_error_actual "1" ["2"] (by decide)

/-- Claim C7 (amended): a legend click whose label is not `"Actual"`, does
not contain the substring `"Error"`, and whose day prefix (the text before
the first `"-Day"`) is neither a known lead-day key nor the active day, is a
no-op on the active-day state; no error is raised (the transition function is
total).  (The original claim — a no-op for every label naming no present
series — fails: a bare key such as `"3"`, or any label containing `"Error"`,
names no series yet does transition; see the counterexample.) -/
theorem legend_missing_label_noop (allDays : List String) (activeDay : Option String)
    (label : String)
    (hE : containsStr label "Error" = false)
    (hA : label ≠ "Actual")
    (hD : extractDay label ∉ allDays)
    (hI : activeDay ≠ some (extractDay label)) :
    nextActiveDay allDays activeDay label = activeDay := by
  have hc : allDays.contains (extractDay label) = false := contains_eq_false_of_not_mem hD
  have hbA : (label == "Actual") = false := by simp [hA]
  cases activeDay with
  | none =>
    simp [nextActiveDay, legendClick, handleChange, toggleDisplayed, jsFalsyDay, hE, hc, hD]
  | some d =>
    have hxd : extractDay label ≠ d := fun hx => hI (by rw [hx])
    by_cases hdE : d = ""
    · subst hdE
      simp [nextActiveDay, legendClick, handleChange, toggleDisplayed, jsFalsyDay, hE,
        hc, hD]
    · have hbe : (d == "") = false := by simp [hdE]
      have hdd : (extractDay label == d) = false := by simp [hxd]
      simp [nextActiveDay, legendClick, handleChange, toggleDisplayed, jsFalsyDay,
        activeFcasts, hbe, hbA, hdd, hc, hD, hxd]

/-- Witness for `legend_missing_label_noop`. -/
theorem legend_missing_label_noop_witness :
    nextActiveDay ["1", "2"] (some "1") "Bogus" = some "1" :=
  legend_missing_label_noop ["1", "2"] (some "1") "Bogus" (by decide) (by decide)
    (by decide) (by decide)

/-- Counterexample to claim C7 as stated: with lead-day keys `["3"]` and the
cumulative state, the label `"3"` names no series in the data (the series are
`"3-Day"`, `"Actual"`, `"Error"` and the `"Error-Area-i"`), yet the click is
not a no-op — it isolates day `"3"`, because `"3".split('-Day')[0]` is the
key itself. -/
theorem legend_missing_label_cex :
    nextActiveDay ["3"] none "3" = some "3" ∧ nextActiveDay ["3"] none "3" ≠ none :=
  ⟨by decide, by decide⟩

/-- Claim C10: a hover activation leaves the active day unchanged — the
voronoi handler passes the sentinel `false` (`DayUpdate.noChange`), and
`handleChange` stores an active day only for a non-`false` value — while the
hover data is always replaced wholesale by the newly activated points. -/
theorem hover_activation_frame :
    (∀ (s : ChartState) (points : List ActiveDatum),
      (onActivated s points).activeFcastDay = s.activeFcastDay
      ∧ (onActivated s points).activeData = points)
    ∧ (∀ (s : ChartState) (dat : Option (List ActiveDatum)),
        (handleChange s DayUpdate.noChange dat).activeFcastDay = s.activeFcastDay)
    ∧ (∀ (s : ChartState) (v : Option String) (dat : Option (List ActiveDatum)),
        (handleChange s (DayUpdate.set v) dat).activeFcastDay = v) :=
  ⟨fun _ _ => ⟨rfl, rfl⟩, fun _ _ => rfl, fun _ _ _ => rfl⟩

/-! ## Stats selection (`ErrorStatsDisplay`, App.js lines 337-339) -/

/-- The per-lead-day analysis (`LeadDayAnalysis` of the data model): forecast
and error timestamp maps and a stats block (stat-type name to properties). -/
structure LeadDayAnalysis where
  fcasts : List (Int × Rat)
  errors : List (Int × Rat)
  stats : List (String × List (String × Rat))
deriving DecidableEq

/-- A variable's analysis payload: observations, lead-day analyses keyed by
lead-day key, and cumulative stats. -/
structure VariableAnalysis where
  obs : List (Int × Rat)
  lead_days : List (String × LeadDayAnalysis)
  cumulative_stats : List (String × List (String × Rat))
deriving DecidableEq

/-- The stats block chosen by `ErrorStatsDisplay` (App.js line 339):
`!activeDay ? analysis.cumulative_stats : analysis.lead_days[activeDay].stats`.
A key absent from `lead_days` yields `none` (JS `undefined`, whose `.stats`
access would throw). -/
def selectedStats (analysis : VariableAnalysis) (activeDay : Option String) :
    Option (List (String × List (String × Rat))) :=
  if jsFalsyDay activeDay then some analysis.cumulative_stats
  else
    (analysis.lead_days.find? (fun p => p.1 == activeDay.getD "")).map
      (fun p => p.2.stats)

/-- Claim C8: the selector returns the payload's `cumulative_stats` exactly
when the active day is null, and the isolated lead-day's own `stats` block —
not `cumulative_stats` — for a concrete active lead-day key present in the
payload. -/
theorem selectedStats_correct (analysis : VariableAnalysis) (d : String)
    (lda : LeadDayAnalysis) (hne : d ≠ "")
    (hfind : analysis.lead_days.find? (fun p => p.1 == d) = some (d, lda)) :
    selectedStats analysis none = some analysis.cumulative_stats
    ∧ selectedStats analysis (some d) = some lda.stats := by
  have hbe : (d == "") = false := by simp [hne]
  exact ⟨rfl, by simp [selectedStats, jsFalsyDay, hbe, hfind]⟩

/-- Witness for `selectedStats_correct`: a payload with one lead-day whose
stats differ from the cumulative stats. -/
theorem selectedStats_correct_witness :
    selectedStats
        ⟨[((0 : Int), (2 : Rat))],
         [("1", ⟨[((0 : Int), (5 : Rat))], [((0 : Int), (3 : Rat))],
            [("accuracy", [("accuracy", Rat.divInt 873 1000)])]⟩)],
         [("accuracy", [("accuracy", Rat.divInt 9 10)])]⟩
        (some "1")
      = some [("accuracy", [("accuracy", Rat.divInt 873 1000)])] :=
  (selectedStats_correct
      ⟨[((0 : Int), (2 : Rat))],
       [("1", ⟨[((0 : Int), (5 : Rat))], [((0 : Int), (3 : Rat))],
          [("accuracy", [("accuracy", Rat.divInt 873 1000)])]⟩)],
       [("accuracy", [("accuracy", Rat.divInt 9 10)])]⟩
      "1"
      ⟨[((0 : Int), (5 : Rat))], [((0 : Int), (3 : Rat))],
        [("accuracy", [("accuracy", Rat.divInt 873 1000)])]⟩
      (by decide) (by decide)).2

end Weather
